import Mathlib

/-!
# Verification of `s3sync`'s `syncer` package

Shallow embedding of `src/syncer/syncer.go` (package `syncer`).  The
orchestration code under `src/` is translated function by function:
`UploadDiffs`, `UpdateManifest`, `WalkAndHash`, `inFilters`, `localize`,
`putObject`, `splitObject`, `putObjs`, `getLastModDate`.

External collaborators that are part of the repository but not under `src/`
(the `splitter` package and the database helpers `setMultipart`,
`recordParts`, `updateUploadStatus`, `updateUploadStatusPart`,
`updateRecord`) are modelled from the spec, as marked in their doc comments.

The environment `Env` is an oracle for the outcomes of all external effects
(S3 `PutObject` results, database-write results, what the splitter task
emitted); `SyncState` carries the observable state: the local filesystem,
the ledger records, and the trace of `PutObject` calls issued.

Go's spinner/terminal progress UI (`pterm`) only formats messages and is
modelled as always succeeding; machine integers (`int64` sizes) are
modelled as `Nat` — file sizes are non-negative and no arithmetic in the
source can overflow at realistic file sizes.

Because `putObject` and `putObjs` are mutually recursive in the source
(a piece that is itself oversized would be split again), the embedding
gives `putObject` an explicit fuel bounding the split-nesting depth; every
claim is insensitive to the fuel as long as it covers the nesting depth of
the scenario at hand.
-/

namespace S3Sync

abbrev Path := String
abbrev Err := String

/-- Result of `os.Stat`: size in bytes and modification time (Unix seconds). -/
structure FileInfo where
  size : Nat
  modTime : Int
deriving Repr, DecidableEq

/-- `types.StorageClassStandard` / `types.StorageClassDeepArchive`. -/
inductive StorageClass
  | standard
  | deepArchive
deriving Repr, DecidableEq

/-- Upload status recorded in the ledger for files and parts. -/
inductive UploadStatus
  | pending
  | uploaded
deriving Repr, DecidableEq

/-- Whole/split outcome of the size-threshold test in `putObject`. -/
inductive SplitClass
  | whole
  | split
deriving Repr, DecidableEq

/-- Observable state: local disk, ledger records, and the trace of S3
`PutObject` calls issued so far (key and storage class, in call order;
a call is recorded whether or not the store reports success). -/
structure SyncState where
  disk : Path → Option FileInfo
  fileStatus : Path → UploadStatus
  partStatus : Path → UploadStatus
  manifest : Path → Option Int
  parts : List (Nat × List Path)
  puts : List (Path × StorageClass)

/-- Oracle for the outcomes of all external effects.

* `sep` — `os.PathSeparator` (`'/'` on POSIX, backslash on Windows);
* `putRes` — outcome of `S3Client.PutObject` per object key (`none` = success);
* `updStatusRes`, `updStatusPartRes`, `setMultipartRes`, `recordPartsRes`,
  `updateRecordRes` — outcomes of the database helpers;
* `splitPieces` — the piece files (path and stat info) the coordinator loop
  collected from the splitter's progress channel for a given source path,
  in emission order;
* `splitTerminal` — the terminal value the splitter sent on its completion
  channel (`none` = success).  The source only displays this value on the
  spinner (`spinnerInfo.Fail(err)`) and then falls through to `End:` in
  both branches, so no definition below consumes it. -/
structure Env where
  sep : Char
  putRes : Path → Option Err
  updStatusRes : Path → Option Err
  updStatusPartRes : Path → Option Err
  setMultipartRes : Path → Except Err Nat
  recordPartsRes : Nat → List Path → Option Err
  updateRecordRes : Path → Int → Option Err
  splitPieces : Path → List (Path × FileInfo)
  splitTerminal : Path → Option Err

/-- `os.Stat` against the modelled disk. -/
def stat (st : SyncState) (p : Path) : Except Err FileInfo :=
  match st.disk p with
  | some info => Except.ok info
  | none => Except.error ("stat " ++ p ++ ": no such file or directory")

/-- `localize` (source lines 112-116): `filepath.FromSlash`, which replaces
every forward slash with the platform separator (the identity on POSIX). -/
def localize (sep : Char) (s : Path) : Path :=
  ⟨s.data.map (fun c => if c = '/' then sep else c)⟩

/-- Modelled from the spec: the "canonical forward-slash form" of a path
(`filepath.ToSlash`) — every platform separator replaced by a forward
slash.  Used only to compare the spec's wording against `localize`. -/
def slashNormalize (sep : Char) (s : Path) : Path :=
  ⟨s.data.map (fun c => if c = sep then '/' else c)⟩

/-- The single-object size limit hard-coded in `putObject`
(source line 129: `info.Size() > 4294967296`). -/
def maxObjectSize : Nat := 4294967296

/-- The threshold classification performed by `putObject`:
split exactly when the stat size strictly exceeds `maxObjectSize`. -/
def classify (sizeBytes : Nat) : SplitClass :=
  if sizeBytes > maxObjectSize then SplitClass.split else SplitClass.whole

/-- `inFilters` (source lines 102-109): true iff the file name ends with at
least one of the filter suffixes (`strings.HasSuffix`). -/
def inFilters (name : String) (filters : List String) : Bool :=
  filters.any (fun filter => name.endsWith filter)

/-- Modelled from the spec: `splitter.CleanUp` (the `splitter` package is
not under `src/`) deletes the listed piece files from local storage. -/
def cleanUp (st : SyncState) (pieces : List Path) : SyncState :=
  { st with disk := fun p => if p ∈ pieces then none else st.disk p }

/-- Modelled from the spec: the database helper `setMultipart` (not under
`src/`) allocates a TransferRecord for the source file and returns its
transfer identifier, or a ledger error. -/
def setMultipart (env : Env) (st : SyncState) (obj : Path) :
    Except Err Nat × SyncState :=
  (env.setMultipartRes obj, st)

/-- Modelled from the spec: the database helper `recordParts` (not under
`src/`) persists one Pending PartRecord per piece, in emission order,
linked to the transfer; a ledger failure leaves the state unchanged. -/
def recordParts (env : Env) (st : SyncState) (id : Nat) (pieces : List Path) :
    Option Err × SyncState :=
  match env.recordPartsRes id pieces with
  | some e => (some e, st)
  | none =>
      (none, { st with
        parts := st.parts ++ [(id, pieces)],
        partStatus := fun p =>
          if p ∈ pieces then UploadStatus.pending else st.partStatus p })

/-- Modelled from the spec: the database helper `updateUploadStatus` (not
under `src/`) marks the whole file's FileStatusRecord as Uploaded
(`markFileUploaded`); a ledger failure commits nothing. -/
def updateUploadStatus (env : Env) (st : SyncState) (p : Path) :
    Option Err × SyncState :=
  match env.updStatusRes p with
  | some e => (some e, st)
  | none =>
      (none, { st with fileStatus := fun q =>
        if q = p then UploadStatus.uploaded else st.fileStatus q })

/-- Modelled from the spec: the database helper `updateUploadStatusPart`
(not under `src/`) marks the piece's PartRecord as Uploaded
(`markPartUploaded`); a ledger failure commits nothing. -/
def updateUploadStatusPart (env : Env) (st : SyncState) (p : Path) :
    Option Err × SyncState :=
  match env.updStatusPartRes p with
  | some e => (some e, st)
  | none =>
      (none, { st with partStatus := fun q =>
        if q = p then UploadStatus.uploaded else st.partStatus q })

/-- Modelled from the spec: the database helper `updateRecord` (not under
`src/`) upserts one manifest row (path, lastModified); may fail. -/
def updateRecord (env : Env) (st : SyncState) (k : Path) (v : Int) :
    Option Err × SyncState :=
  match env.updateRecordRes k v with
  | some e => (some e, st)
  | none =>
      (none, { st with manifest := fun p =>
        if p = k then some v else st.manifest p })

/-- `splitObject` (source lines 161-204).  Allocates the transfer record,
runs the splitter task and drains its channels (the loop's collected
pieces are `env.splitPieces obj`, written to disk by the task as they are
emitted), then — mirroring the source exactly — reassigns `err` to the
result of `recordParts` after the `End:` label, so the terminal value
received on `retErr` never reaches the return value; finally the deferred
`splitter.CleanUp(pieces)` removes the collected piece files on every exit
path past the loop. -/
def splitObject (env : Env) (st : SyncState) (obj : Path) :
    Except Err (List Path) × SyncState :=
  let m := setMultipart env st obj
  match m.1 with
  | Except.error e => (Except.error e, m.2)
  | Except.ok id =>
      let st1 := m.2
      let emitted := env.splitPieces obj
      let pieces := emitted.map Prod.fst
      let st2 : SyncState := { st1 with disk := fun p =>
        (match List.lookup p emitted with
         | some i => some i
         | none => st1.disk p) }
      let r := recordParts env st2 id pieces
      match r.1 with
      | some e => (Except.error e, cleanUp r.2 pieces)
      | none => (Except.ok pieces, cleanUp r.2 pieces)

/-- The loop body of `putObjs` (source lines 212-223), generic in the
one-object upload action and the part-status commit so that the mutual
recursion with `putObject` is by structural recursion on the piece list. -/
def putObjsGo (putO : SyncState → Path → Option Err × SyncState)
    (updPart : SyncState → Path → Option Err × SyncState) :
    SyncState → List Path → Option Err × SyncState
  | st, [] => (none, st)
  | st, obj :: rest =>
      let r := putO st obj
      match r.1 with
      | some e => (some e, r.2)
      | none =>
          let u := updPart r.2 obj
          match u.1 with
          | some e => (some e, u.2)
          | none => putObjsGo putO updPart u.2 rest

/-- `putObject` (source lines 121-159).  Stats the file; if the size
strictly exceeds `maxObjectSize` it delegates to `splitObject` and then
uploads the returned pieces via the `putObjs` loop; otherwise it opens the
file and issues one `PutObject` with key `localize sep obj` and the
storage class selected by `deep`.  The fuel bounds split-nesting depth
(the source has no such bound; a cycle of oversized pieces would loop). -/
def putObject : Nat → Env → SyncState → Path → Bool → Option Err × SyncState
  | 0, _, st, _, _ => (some "model: split nesting exceeded fuel", st)
  | fuel + 1, env, st, obj, deep =>
      match stat st obj with
      | Except.error e => (some e, st)
      | Except.ok info =>
          if info.size > maxObjectSize then
            let r := splitObject env st obj
            match r.1 with
            | Except.error e => (some e, r.2)
            | Except.ok pieces =>
                putObjsGo (fun s o => putObject fuel env s o deep)
                  (fun s o => updateUploadStatusPart env s o) r.2 pieces
          else
            match stat st obj with
            | Except.error e => (some e, st)
            | Except.ok _ =>
                let sc := if deep then StorageClass.deepArchive
                  else StorageClass.standard
                (env.putRes (localize env.sep obj),
                 { st with puts := st.puts ++ [(localize env.sep obj, sc)] })

/-- `putObjs` (source lines 206-226): uploads the pieces in order, marking
each piece's PartRecord Uploaded right after that piece's upload
succeeds, stopping at the first error. -/
def putObjs (fuel : Nat) (env : Env) (st : SyncState) (objs : List Path)
    (deep : Bool) : Option Err × SyncState :=
  putObjsGo (fun s o => putObject fuel env s o deep)
    (fun s o => updateUploadStatusPart env s o) st objs

/-- `UploadDiffs` (source lines 28-55): processes the caller-supplied paths
in order; for each, `putObject` then `updateUploadStatus`, returning the
first error immediately; an empty list succeeds with no effect. -/
def UploadDiffs (fuel : Nat) (env : Env) :
    SyncState → List Path → Bool → Option Err × SyncState
  | st, [], _ => (none, st)
  | st, v :: rest, deep =>
      let r := putObject fuel env st v deep
      match r.1 with
      | some e => (some e, r.2)
      | none =>
          let u := updateUploadStatus env r.2 v
          match u.1 with
          | some e => (some e, u.2)
          | none => UploadDiffs fuel env u.2 rest deep

/-- `UpdateManifest` (source lines 58-64): calls `updateRecord` for every
entry, discarding each call's result, and returns `nil`.  Go iterates the
map in unspecified order; the entry list stands for one such order. -/
def UpdateManifest (env : Env) :
    SyncState → List (Path × Int) → Option Err × SyncState
  | st, [] => (none, st)
  | st, (k, v) :: rest => UpdateManifest env (updateRecord env st k v).2 rest

/-- `getLastModDate` (source lines 230-237): stat, then the modification
time as Unix seconds. -/
def getLastModDate (st : SyncState) (f : Path) : Except Err Int :=
  match stat st f with
  | Except.error e => Except.error e
  | Except.ok info => Except.ok info.modTime

/-- One entry seen by `filepath.Walk`: full path, base name, directory flag. -/
structure WalkEntry where
  path : Path
  name : String
  isDir : Bool
deriving Repr, DecidableEq

/-- `WalkAndHash` (source lines 69-99): walks the entries; for each
non-directory whose name passes `inFilters`, records
`localize(path) ↦ lastModDate`; a `getLastModDate` failure aborts the
walk and is returned.  (Errors handed to the walk callback itself are
skipped by the source — `if err == nil` — and walking continues.) -/
def WalkAndHash (env : Env) (st : SyncState) :
    List WalkEntry → List String → Except Err (List (Path × Int))
  | [], _ => Except.ok []
  | e :: rest, filters =>
      if e.isDir then WalkAndHash env st rest filters
      else if inFilters e.name filters then
        match getLastModDate st e.path with
        | Except.error err => Except.error err
        | Except.ok h =>
            match WalkAndHash env st rest filters with
            | Except.error err => Except.error err
            | Except.ok m => Except.ok ((localize env.sep e.path, h) :: m)
      else WalkAndHash env st rest filters

/-- A benign environment: POSIX separator, every external call succeeds,
the splitter emits nothing. -/
def baseEnv : Env where
  sep := '/'
  putRes := fun _ => none
  updStatusRes := fun _ => none
  updStatusPartRes := fun _ => none
  setMultipartRes := fun _ => Except.ok 1
  recordPartsRes := fun _ _ => none
  updateRecordRes := fun _ _ => none
  splitPieces := fun _ => []
  splitTerminal := fun _ => none

/-- The empty state: nothing on disk, all statuses Pending, no traces. -/
def baseState : SyncState where
  disk := fun _ => none
  fileStatus := fun _ => UploadStatus.pending
  partStatus := fun _ => UploadStatus.pending
  manifest := fun _ => none
  parts := []
  puts := []


/-- A source file strictly over the 4 GiB threshold. -/
def bigFileState : SyncState :=
  { baseState with disk := fun p => if p = "big" then some ⟨5000000000, 0⟩ else none }

/-- Environment whose splitter task emits one piece and succeeds. -/
def splitEnvOk : Env :=
  { baseEnv with splitPieces := fun _ => [("big.000", ⟨4294967296, 0⟩)] }

/-- Environment whose splitter task emits one piece and then signals a
terminal error on the completion channel. -/
def splitEnvErr : Env :=
  { splitEnvOk with splitTerminal := fun _ => some "splitter: disk full" }

/-- A state whose every unit is already recorded as Uploaded. -/
def uploadedState : SyncState :=
  { baseState with
      disk := fun p => if p = "a" then some ⟨1, 0⟩ else none,
      fileStatus := fun _ => UploadStatus.uploaded,
      partStatus := fun _ => UploadStatus.uploaded }

/-- Windows-like environment: the platform separator is a backslash. -/
def winEnv : Env := { baseEnv with sep := '\\' }

/-- One small file at a path containing a forward slash. -/
def winState : SyncState :=
  { baseState with disk := fun p => if p = "dir/file.bin" then some ⟨1, 0⟩ else none }

/-- A disk on which every path stats as a 1-byte (whole) file. -/
def wholeState : SyncState := { baseState with disk := fun _ => some ⟨1, 0⟩ }

/-- A whole file of size exactly the threshold. -/
def thresholdState : SyncState :=
  { baseState with disk := fun p => if p = "x" then some ⟨4294967296, 0⟩ else none }

/-- Environment whose object store rejects the Put for key "b". -/
def failEnv : Env :=
  { baseEnv with putRes := fun k => if k = "b" then some "boom" else none }

/-- Three small whole files a, b, c. -/
def abcState : SyncState :=
  { baseState with disk := fun p =>
      if p = "a" ∨ p = "b" ∨ p = "c" then some ⟨1, 0⟩ else none }


theorem updateUploadStatus_puts (env : Env) (st : SyncState) (p : Path) :
    (updateUploadStatus env st p).2.puts = st.puts := by
  unfold updateUploadStatus
  cases env.updStatusRes p <;> rfl

theorem updateUploadStatusPart_puts (env : Env) (st : SyncState) (p : Path) :
    (updateUploadStatusPart env st p).2.puts = st.puts := by
  unfold updateUploadStatusPart
  cases env.updStatusPartRes p <;> rfl

theorem recordParts_puts (env : Env) (st : SyncState) (id : Nat)
    (pieces : List Path) : (recordParts env st id pieces).2.puts = st.puts := by
  unfold recordParts
  cases env.recordPartsRes id pieces <;> rfl

theorem splitObject_puts (env : Env) (st : SyncState) (obj : Path) :
    (splitObject env st obj).2.puts = st.puts := by
  unfold splitObject setMultipart
  cases hm : env.setMultipartRes obj with
  | error e => rfl
  | ok id =>
      simp only [hm]
      cases hr : env.recordPartsRes id ((env.splitPieces obj).map Prod.fst) <;>
        simp only [recordParts, hr, cleanUp]

theorem putObjsGo_puts_mono
    (putO updPart : SyncState → Path → Option Err × SyncState)
    (hput : ∀ s o x, x ∈ s.puts → x ∈ (putO s o).2.puts)
    (hupd : ∀ s o x, x ∈ s.puts → x ∈ (updPart s o).2.puts) :
    ∀ (objs : List Path) (st : SyncState) (x : Path × StorageClass),
      x ∈ st.puts → x ∈ (putObjsGo putO updPart st objs).2.puts := by
  intro objs
  induction objs with
  | nil => intro st x hx; exact hx
  | cons obj rest ih =>
      intro st x hx
      have h1 := hput st obj x hx
      simp only [putObjsGo]
      cases hp : (putO st obj).1 with
      | some e => exact h1
      | none =>
          have h2 := hupd (putO st obj).2 obj x h1
          cases hq : (updPart (putO st obj).2 obj).1 with
          | some e => exact h2
          | none => exact ih _ x h2

theorem putObject_puts_mono :
    ∀ (fuel : Nat) (env : Env) (deep : Bool) (st : SyncState) (obj : Path)
      (x : Path × StorageClass),
      x ∈ st.puts → x ∈ (putObject fuel env st obj deep).2.puts := by
  intro fuel
  induction fuel with
  | zero => intro env deep st obj x hx; exact hx
  | succ fuel ih =>
      intro env deep st obj x hx
      cases hd : st.disk obj with
      | none => simp only [putObject, stat, hd]; exact hx
      | some info =>
          simp only [putObject, stat, hd]
          by_cases hsize : info.size > maxObjectSize
          · rw [if_pos hsize]
            have hpu : x ∈ (splitObject env st obj).2.puts := by
              rw [splitObject_puts]; exact hx
            cases hsp : (splitObject env st obj).1 with
            | error e => exact hpu
            | ok pieces =>
                exact putObjsGo_puts_mono _ _
                  (fun s o y hy => ih env deep s o y hy)
                  (fun s o y hy => by
                    rw [updateUploadStatusPart_puts]; exact hy)
                  pieces _ x hpu
          · rw [if_neg hsize]
            exact List.mem_append_left _ hx

theorem UploadDiffs_puts_mono (fuel : Nat) (env : Env) (deep : Bool) :
    ∀ (diffs : List Path) (st : SyncState) (x : Path × StorageClass),
      x ∈ st.puts → x ∈ (UploadDiffs fuel env st diffs deep).2.puts := by
  intro diffs
  induction diffs with
  | nil => intro st x hx; exact hx
  | cons v rest ih =>
      intro st x hx
      simp only [UploadDiffs]
      have h1 := putObject_puts_mono fuel env deep st v x hx
      cases hp : (putObject fuel env st v deep).1 with
      | some e => exact h1
      | none =>
          have h2 : x ∈ (updateUploadStatus env (putObject fuel env st v deep).2 v).2.puts := by
            rw [updateUploadStatus_puts]; exact h1
          cases hq : (updateUploadStatus env (putObject fuel env st v deep).2 v).1 with
          | some e => exact h2
          | none => exact ih _ x h2

theorem localize_slash_id (s : Path) : localize '/' s = s := by
  unfold localize
  have h : s.data.map (fun c => if c = '/' then '/' else c) = s.data := by
    induction s.data with
    | nil => rfl
    | cons c cs ih => by_cases hc : c = '/' <;> simp [hc, ih]
  rw [h]

/-- C1 (code bug in the source): on a terminal splitter failure the error
received from the completion channel is displayed on the spinner and then
overwritten by the `recordParts` result after the `End:` label, so
`splitObject` returns `ok` with the collected pieces instead of the error;
with zero collected pieces the enclosing `putObject` even reports overall
success.  (No PartRecord is Uploaded — they are created Pending — but the
error is not propagated.) -/
theorem splitObject_swallows_splitter_error :
    splitEnvErr.splitTerminal "big" = some "splitter: disk full" ∧
    (splitObject splitEnvErr bigFileState "big").1 = Except.ok ["big.000"] ∧
    (splitObject splitEnvErr bigFileState "big").2.partStatus "big.000" =
      UploadStatus.pending ∧
    (putObject 2 { baseEnv with splitTerminal := fun _ => some "disk full" }
      bigFileState "big" false).1 = none :=
  ⟨rfl, rfl, rfl, rfl⟩

/-- C2 (code bug in the source): `defer splitter.CleanUp(pieces)` runs when
`splitObject` returns — before `putObjs` uploads the pieces — so the piece
files are already deleted when the first part's upload is attempted: its
stat fails, no Put is ever issued for any part, and the PartRecord stays
Pending. -/
theorem putObject_split_pieces_deleted_before_upload :
    (putObject 2 splitEnvOk bigFileState "big" false).1 =
      some "stat big.000: no such file or directory" ∧
    (putObject 2 splitEnvOk bigFileState "big" false).2.puts = [] ∧
    (putObject 2 splitEnvOk bigFileState "big" false).2.partStatus "big.000" =
      UploadStatus.pending :=
  ⟨rfl, rfl, rfl⟩

/-- C3 counterexample: a unit whose status is already Uploaded still gets a
Put call — `UploadDiffs` never consults upload status, so the claimed
idempotence (zero Puts on an all-Uploaded unit set) is false. -/
theorem UploadDiffs_puts_despite_uploaded :
    uploadedState.fileStatus "a" = UploadStatus.uploaded ∧
    (UploadDiffs 1 baseEnv uploadedState ["a"] false).2.puts.length = 1 :=
  ⟨rfl, rfl⟩

/-- C3 amended: re-running the Batch Driver performs zero Put calls only
when the unit list is empty; the driver does not consult upload status,
and for a nonempty list whose head stats as a whole file a Put for that
unit is issued even when its status is already Uploaded. -/
theorem UploadDiffs_ignores_uploaded_status :
    (∀ (fuel : Nat) (env : Env) (st : SyncState) (deep : Bool),
      UploadDiffs fuel env st [] deep = (none, st)) ∧
    (∀ (fuel : Nat) (env : Env) (st : SyncState) (deep : Bool) (v : Path)
      (rest : List Path) (info : FileInfo),
      st.disk v = some info → info.size ≤ maxObjectSize →
      st.fileStatus v = UploadStatus.uploaded →
      (localize env.sep v,
        if deep then StorageClass.deepArchive else StorageClass.standard)
        ∈ (UploadDiffs (fuel + 1) env st (v :: rest) deep).2.puts) := by
  constructor
  · intro fuel env st deep; rfl
  · intro fuel env st deep v rest info hd hsize hst
    have hw : ¬ info.size > maxObjectSize := by omega
    simp only [UploadDiffs, putObject, stat, hd, if_neg hw]
    cases hp : env.putRes (localize env.sep v) with
    | some e =>
        simp only [hp]
        exact List.mem_append_right _ (List.mem_singleton.mpr rfl)
    | none =>
        simp only [hp, updateUploadStatus]
        cases hq : env.updStatusRes v with
        | some e =>
            simp only [hq]
            exact List.mem_append_right _ (List.mem_singleton.mpr rfl)
        | none =>
            simp only [hq]
            apply UploadDiffs_puts_mono
            exact List.mem_append_right _ (List.mem_singleton.mpr rfl)

theorem UploadDiffs_ignores_uploaded_status_witness :
    UploadDiffs 1 baseEnv baseState [] false = (none, baseState) ∧
    ("a", StorageClass.standard) ∈
      (UploadDiffs 1 baseEnv uploadedState ["a"] false).2.puts :=
  ⟨UploadDiffs_ignores_uploaded_status.1 1 baseEnv baseState false,
   UploadDiffs_ignores_uploaded_status.2 0 baseEnv uploadedState false "a" []
     ⟨1, 0⟩ rfl (by decide) rfl⟩

/-- C4: fail-fast — with units [a, b, c] where a's upload and commit
succeed and b's Put fails, the driver returns b's error, the Put trace
shows exactly a's and b's Put calls in order (c is never attempted), and
a's committed Uploaded status is still present in the final state. -/
theorem UploadDiffs_failfast (fuel : Nat) (env : Env) (st : SyncState)
    (a b c : Path) (deep : Bool) (ia ib : FileInfo) (e : Err)
    (hda : st.disk a = some ia) (hsa : ia.size ≤ maxObjectSize)
    (hdb : st.disk b = some ib) (hsb : ib.size ≤ maxObjectSize)
    (hpa : env.putRes (localize env.sep a) = none)
    (hua : env.updStatusRes a = none)
    (hpb : env.putRes (localize env.sep b) = some e) :
    (UploadDiffs (fuel + 1) env st [a, b, c] deep).1 = some e ∧
    (UploadDiffs (fuel + 1) env st [a, b, c] deep).2.puts =
      st.puts ++
        [(localize env.sep a,
           if deep then StorageClass.deepArchive else StorageClass.standard),
         (localize env.sep b,
           if deep then StorageClass.deepArchive else StorageClass.standard)] ∧
    (UploadDiffs (fuel + 1) env st [a, b, c] deep).2.fileStatus a =
      UploadStatus.uploaded := by
  have hwa : ¬ ia.size > maxObjectSize := by omega
  have hwb : ¬ ib.size > maxObjectSize := by omega
  simp only [UploadDiffs, putObject, stat, hda, hdb, if_neg hwa, if_neg hwb,
    updateUploadStatus, hpa, hua, hpb]
  refine ⟨by simp, by simp, by simp⟩

theorem UploadDiffs_failfast_witness :
    (UploadDiffs 1 failEnv abcState ["a", "b", "c"] false).1 = some "boom" ∧
    (UploadDiffs 1 failEnv abcState ["a", "b", "c"] false).2.puts =
      [("a", StorageClass.standard), ("b", StorageClass.standard)] ∧
    (UploadDiffs 1 failEnv abcState ["a", "b", "c"] false).2.fileStatus "a" =
      UploadStatus.uploaded :=
  UploadDiffs_failfast 0 failEnv abcState "a" "b" "c" false ⟨1, 0⟩ ⟨1, 0⟩ "boom"
    rfl (by decide) rfl (by decide) rfl rfl rfl

/-- C5: the threshold classification returns Split exactly when the size
strictly exceeds 4294967296 bytes (4 GiB); a size exactly equal to the
threshold is classified Whole, and such a file is uploaded as a single
object: one Put with the file's own key. -/
theorem classify_threshold (s : Nat) (env : Env) (st : SyncState) (obj : Path)
    (info : FileInfo) (fuel : Nat) (deep : Bool)
    (hd : st.disk obj = some info) (hsize : info.size = maxObjectSize) :
    (classify s = SplitClass.split ↔ 4294967296 < s) ∧
    classify 4294967296 = SplitClass.whole ∧
    (putObject (fuel + 1) env st obj deep).2.puts =
      st.puts ++ [(localize env.sep obj,
        if deep then StorageClass.deepArchive else StorageClass.standard)] := by
  refine ⟨?_, ?_, ?_⟩
  · unfold classify maxObjectSize
    by_cases h : 4294967296 < s <;> simp [h]
  · unfold classify maxObjectSize
    simp
  · have hw : ¬ info.size > maxObjectSize := by omega
    simp only [putObject, stat, hd, if_neg hw]

theorem classify_threshold_witness :
    (classify 5000000000 = SplitClass.split ↔ 4294967296 < 5000000000) ∧
    classify 4294967296 = SplitClass.whole ∧
    (putObject 1 baseEnv thresholdState "x" false).2.puts =
      [("x", StorageClass.standard)] :=
  classify_threshold 5000000000 baseEnv thresholdState "x" ⟨4294967296, 0⟩ 0
    false rfl rfl

/-- C6: once the Split Coordinator cycle for one file has run its
collection loop — whatever the splitter's terminal value, and even if
persisting the part records fails — every piece file the cycle collected
is removed from local storage by the deferred cleanup. -/
theorem splitObject_pieces_removed (env : Env) (st : SyncState) (obj : Path)
    (id : Nat) (h : env.setMultipartRes obj = Except.ok id) :
    ∀ p ∈ (env.splitPieces obj).map Prod.fst,
      (splitObject env st obj).2.disk p = none := by
  intro p hp
  unfold splitObject setMultipart
  simp only [h]
  cases hr : env.recordPartsRes id ((env.splitPieces obj).map Prod.fst) <;>
    simp only [recordParts, hr, cleanUp] <;> rw [if_pos hp]

theorem splitObject_pieces_removed_witness :
    (splitObject splitEnvOk baseState "big").2.disk "big.000" = none :=
  splitObject_pieces_removed splitEnvOk baseState "big" 1 rfl "big.000"
    (by decide)

/-- C7 counterexample: with the Windows separator, the Put key for unit
path "dir/file.bin" is "dir\file.bin" — the localized form, not the
canonical forward-slash form the claim requires. -/
theorem putObject_key_not_slash_normalized :
    (putObject 1 winEnv winState "dir/file.bin" false).2.puts =
      [("dir\\file.bin", StorageClass.standard)] ∧
    slashNormalize '\\' "dir\\file.bin" = "dir/file.bin" ∧
    ("dir\\file.bin" : Path) ≠ "dir/file.bin" :=
  ⟨rfl, rfl, by decide⟩

/-- C7 amended: the object key passed to Put is the unit's path with
forward slashes replaced by the platform separator (`filepath.FromSlash`,
the identity on POSIX) — localization, not forward-slash normalization. -/
theorem putObject_key_localized (env : Env) (st : SyncState) (obj : Path)
    (info : FileInfo) (fuel : Nat) (deep : Bool)
    (hd : st.disk obj = some info) (hsize : info.size ≤ maxObjectSize) :
    (putObject (fuel + 1) env st obj deep).2.puts =
      st.puts ++ [(localize env.sep obj,
        if deep then StorageClass.deepArchive else StorageClass.standard)] ∧
    localize '/' obj = obj := by
  constructor
  · have hw : ¬ info.size > maxObjectSize := by omega
    simp only [putObject, stat, hd, if_neg hw]
  · exact localize_slash_id obj

theorem putObject_key_localized_witness :
    (putObject 1 winEnv winState "dir/file.bin" false).2.puts =
      [("dir\\file.bin", StorageClass.standard)] ∧
    localize '/' "dir/file.bin" = "dir/file.bin" :=
  putObject_key_localized winEnv winState "dir/file.bin" ⟨1, 0⟩ 0 false rfl
    (by decide)

/-- C8: over a batch of whole files (everything on disk is at or under the
threshold), a FileStatusRecord is Uploaded in the final state only if it
was already Uploaded or the Put for that exact file returned success (so
it is never set when the Put fails), and an Uploaded status is never
reverted by the run; with monotonicity the Pending to Uploaded transition
can happen at most once. -/
theorem UploadDiffs_status_invariant (fuel : Nat) (env : Env) (deep : Bool) :
    ∀ (diffs : List Path) (st : SyncState),
      (∀ u info, st.disk u = some info → info.size ≤ maxObjectSize) →
      ∀ v : Path,
        (st.fileStatus v = UploadStatus.uploaded →
          (UploadDiffs (fuel + 1) env st diffs deep).2.fileStatus v =
            UploadStatus.uploaded) ∧
        ((UploadDiffs (fuel + 1) env st diffs deep).2.fileStatus v =
            UploadStatus.uploaded →
          st.fileStatus v = UploadStatus.uploaded ∨
            (v ∈ diffs ∧ env.putRes (localize env.sep v) = none)) := by
  intro diffs
  induction diffs with
  | nil => intro st hsmall v; exact ⟨fun h => h, fun h => Or.inl h⟩
  | cons w rest ih =>
      intro st hsmall v
      cases hd : st.disk w with
      | none =>
          simp only [UploadDiffs, putObject, stat, hd]
          exact ⟨fun h => h, fun h => Or.inl h⟩
      | some info =>
          have hw : ¬ info.size > maxObjectSize := by
            have := hsmall w info hd; omega
          simp only [UploadDiffs, putObject, stat, hd, if_neg hw]
          cases hp : env.putRes (localize env.sep w) with
          | some e =>
              simp only [hp]
              exact ⟨fun h => h, fun h => Or.inl h⟩
          | none =>
              simp only [hp, updateUploadStatus]
              cases hq : env.updStatusRes w with
              | some e =>
                  simp only [hq]
                  exact ⟨fun h => h, fun h => Or.inl h⟩
              | none =>
                  simp only [hq]
                  have H := ih
                    { st with
                      fileStatus := fun q =>
                        if q = w then UploadStatus.uploaded else st.fileStatus q,
                      puts := st.puts ++ [(localize env.sep w,
                        if deep then StorageClass.deepArchive
                        else StorageClass.standard)] }
                    (fun u i hh => hsmall u i hh) v
                  constructor
                  · intro h
                    apply H.1
                    by_cases hvw : v = w <;> simp [hvw, h]
                  · intro h
                    rcases H.2 h with h2 | h2
                    · by_cases hvw : v = w
                      · exact Or.inr ⟨by simp [hvw], by rw [hvw]; exact hp⟩
                      · left
                        simpa [hvw] using h2
                    · exact Or.inr ⟨List.mem_cons_of_mem _ h2.1, h2.2⟩

theorem UploadDiffs_status_invariant_witness :
    (wholeState.fileStatus "w" = UploadStatus.uploaded →
      (UploadDiffs 1 baseEnv wholeState ["w"] false).2.fileStatus "w" =
        UploadStatus.uploaded) ∧
    ((UploadDiffs 1 baseEnv wholeState ["w"] false).2.fileStatus "w" =
        UploadStatus.uploaded →
      wholeState.fileStatus "w" = UploadStatus.uploaded ∨
        ("w" ∈ ["w"] ∧ baseEnv.putRes (localize baseEnv.sep "w") = none)) :=
  UploadDiffs_status_invariant 0 baseEnv false ["w"] wholeState
    (fun u info h => by
      have h2 : (⟨1, 0⟩ : FileInfo) = info := by injection h
      rw [← h2]; decide) "w"

/-- C9: `UpdateManifest` returns nil for every input map — each
`updateRecord` call's result is discarded, so a failure while updating an
individual record is never reported to the caller. -/
theorem UpdateManifest_returns_nil (env : Env) (st : SyncState)
    (objs : List (Path × Int)) : (UpdateManifest env st objs).1 = none := by
  induction objs generalizing st with
  | nil => rfl
  | cons kv rest ih =>
      obtain ⟨k, v⟩ := kv
      exact ih _

/-- C10: `inFilters` with an empty filter list rejects every file name, so
`WalkAndHash` over any directory tree with no filters returns the empty
inventory. -/
theorem WalkAndHash_empty_filters :
    (∀ (env : Env) (st : SyncState) (entries : List WalkEntry),
      WalkAndHash env st entries [] = Except.ok []) ∧
    (∀ name : String, inFilters name [] = false) := by
  constructor
  · intro env st entries
    induction entries with
    | nil => rfl
    | cons e rest ih => simp [WalkAndHash, inFilters, ih]
  · intro name; rfl

end S3Sync
